import Mathlib

/-!
Verification of the LiquidBills recurring-bill engine.

The definitions below are a shallow embedding of the program's source:
`src/App.tsx` (`handleSaveBill`, `toggleBillPaid`, `handleDeleteBill`,
`stats`) and `src/components/EditModal.tsx` (`validateDuplicate`,
`handleSubmit`).  Dates are modelled by their civil fields together with
ECMAScript `Date` month arithmetic (proleptic Gregorian calendar, day
overflow rolling into the following month, exactly as `setMonth`
normalises a time value).  Monetary amounts are modelled as rationals.
-/

namespace LiquidBills

/-- ECMAScript leap-year rule (`DaysInYear`). -/
def isLeap (y : Nat) : Bool :=
  (y % 4 == 0) && (!(y % 100 == 0) || (y % 400 == 0))

/-- Days in month `m` (0-based, January = 0) of a year with leap flag
`leap`; ECMAScript `DaysInMonth`. -/
def monthLen (leap : Bool) (m : Nat) : Nat :=
  if m = 1 then (if leap then 29 else 28)
  else if m = 3 ∨ m = 5 ∨ m = 8 ∨ m = 10 then 30
  else 31

/-- Days in year `y`; ECMAScript `DaysInYear`. -/
def yearLen (y : Nat) : Nat := if isLeap y then 366 else 365

/-- Days strictly before year `y` counted from year 0 (ECMAScript
`DayFromYear`, shifted so that year 0 is day 0). -/
def daysBeforeYear : Nat → Nat
  | 0 => 0
  | y + 1 => daysBeforeYear y + yearLen y

/-- Days before month `m` (0-based) inside a year with leap flag `leap`;
ECMAScript `DayWithinYear` of the first of the month. -/
def monthOffset (leap : Bool) : Nat → Nat
  | 0 => 0
  | m + 1 => monthOffset leap m + monthLen leap m

/-- A calendar date by its civil fields, month 0-based (as returned by
JavaScript `getMonth`), day 1-based (as returned by `getDate`). -/
structure CivilDate where
  year : Nat
  month : Nat
  day : Nat
deriving DecidableEq, Repr

/-- Absolute day count of a civil date (ECMAScript `MakeDay`).  This is
the quantity whose numeric order coincides with the lexicographic order
of the ISO strings the program stores and compares. -/
def dayNumber (dt : CivilDate) : Nat :=
  daysBeforeYear dt.year + monthOffset (isLeap dt.year) dt.month + (dt.day - 1)

/-- First day (absolute) of absolute month index `M` counted from month 0
of year `y`; `MakeDay y M 1`. -/
def monthStartAbs (y M : Nat) : Nat :=
  daysBeforeYear (y + M / 12) + monthOffset (isLeap (y + M / 12)) (M % 12)

/-- ECMAScript `Date.prototype.setMonth dt M` for a well-formed date
(`1 ≤ dt.day ≤ 31`): the year/month are renormalised and a day-of-month
that does not exist in the target month overflows into the following
month (it is NOT clamped).  Since `dt.day ≤ 31` and every month has at
least 28 days, at most one carry is needed and the carry never crosses a
year boundary (December has 31 days). -/
def jsSetMonth (dt : CivilDate) (M : Nat) : CivilDate :=
  if dt.day ≤ monthLen (isLeap (dt.year + M / 12)) (M % 12) then
    ⟨dt.year + M / 12, M % 12, dt.day⟩
  else
    ⟨dt.year + M / 12, M % 12 + 1, dt.day - monthLen (isLeap (dt.year + M / 12)) (M % 12)⟩

theorem monthLen_ge (leap : Bool) (m : Nat) : 28 ≤ monthLen leap m := by
  unfold monthLen
  repeat' split
  all_goals omega

theorem monthLen_le (leap : Bool) (m : Nat) : monthLen leap m ≤ 31 := by
  unfold monthLen
  repeat' split
  all_goals omega

theorem monthOffset_succ (leap : Bool) (m : Nat) :
    monthOffset leap (m + 1) = monthOffset leap m + monthLen leap m := rfl

theorem daysBeforeYear_succ (y : Nat) :
    daysBeforeYear (y + 1) = daysBeforeYear y + yearLen y := rfl

theorem monthOffset_eleven (leap : Bool) :
    monthOffset leap 11 = if leap then 335 else 334 := by
  cases leap <;> rfl

/-- `dayNumber` of the result of `setMonth` is the start of the target
month plus the (fixed) day offset — day overflow does not disturb the
absolute day count. -/
theorem dayNumber_jsSetMonth (dt : CivilDate) (M : Nat)
    (h1 : 1 ≤ dt.day) (h31 : dt.day ≤ 31) :
    dayNumber (jsSetMonth dt M) = monthStartAbs dt.year M + (dt.day - 1) := by
  unfold jsSetMonth dayNumber monthStartAbs
  split
  · simp
  · rename_i hov
    simp only []
    rw [monthOffset_succ]
    have := monthLen_ge (isLeap (dt.year + M / 12)) (M % 12)
    omega

/-- The absolute month start advances by at least 28 days per month. -/
theorem monthStartAbs_step (y M : Nat) :
    monthStartAbs y M + 28 ≤ monthStartAbs y (M + 1) := by
  unfold monthStartAbs
  rcases Nat.lt_or_ge (M % 12) 11 with hr | hr
  · have hq : (M + 1) / 12 = M / 12 := by omega
    have hm : (M + 1) % 12 = M % 12 + 1 := by omega
    rw [hq, hm, monthOffset_succ]
    have := monthLen_ge (isLeap (y + M / 12)) (M % 12)
    omega
  · have hr11 : M % 12 = 11 := by omega
    have hq : (M + 1) / 12 = M / 12 + 1 := by omega
    have hm : (M + 1) % 12 = 0 := by omega
    rw [hq, hm, hr11]
    have hy : y + (M / 12 + 1) = (y + M / 12) + 1 := by omega
    rw [hy, daysBeforeYear_succ]
    rw [monthOffset_eleven]
    unfold yearLen monthOffset
    cases h : isLeap (y + M / 12)
    all_goals simp [h]

/-- The absolute month start is strictly monotone in the month index. -/
theorem monthStartAbs_strict_mono (y : Nat) {M M' : Nat} (h : M < M') :
    monthStartAbs y M < monthStartAbs y M' := by
  induction M' with
  | zero => omega
  | succ n ih =>
    have hstep := monthStartAbs_step y n
    rcases Nat.lt_or_ge M n with hlt | hge
    · exact Nat.lt_of_lt_of_le (ih hlt) (by omega)
    · have : M = n := by omega
      subst this
      omega

/-- Bill category (`src/types.ts`, `BillCategory`). -/
inductive BillCategory where
  | house | media | subscription | credit | other
deriving DecidableEq, Repr

/-- A bill row (`src/types.ts`, `Bill`).  `dueDate` is stored by the
program as an ISO string; here it is carried as its civil date, compared
through `dayNumber` (ISO-string order and `dayNumber` order agree). -/
structure Bill where
  id : Nat
  name : String
  amount : Rat
  dueDate : CivilDate
  isPaid : Bool
  isRecurring : Bool
  frequency : Option Nat
  category : BillCategory
  seriesId : Option String
deriving DecidableEq, Repr

/-- A remote-store row payload without an id (`preparePayload` output,
`src/App.tsx` lines 277-286). -/
structure Payload where
  name : String
  amount : Rat
  due_date : CivilDate
  is_paid : Bool
  is_recurring : Bool
  frequency : Option Nat
  category : BillCategory
  series_id : Option String
deriving DecidableEq, Repr

/-- `preparePayload` (`src/App.tsx` lines 277-286). -/
def preparePayload (b : Bill) : Payload :=
  ⟨b.name, b.amount, b.dueDate, b.isPaid, b.isRecurring, b.frequency,
   b.category, b.seriesId⟩

/-- A payload together with a store-assigned id yields a row. -/
def applyPayload (p : Payload) (i : Nat) : Bill :=
  ⟨i, p.name, p.amount, p.due_date, p.is_paid, p.is_recurring, p.frequency,
   p.category, p.series_id⟩

/-- Batch insert: the store assigns consecutive fresh ids. -/
def applyPayloads (startId : Nat) (ps : List Payload) : List Bill :=
  ps.enum.map (fun pr => applyPayload pr.2 (startId + pr.1))

/-- `billData.frequency || BillFrequency.MONTHLY` (`src/App.tsx` lines
294 and 390): JavaScript `||` replaces a falsy frequency (absent, or 0)
with MONTHLY = 1. -/
def jsFreqDefault (o : Option Nat) : Nat :=
  match o with
  | none => 1
  | some f => if f = 0 then 1 else f

/-- `Math.ceil (a / b)` on naturals, for `b ≥ 1`. -/
def ceilDiv (a b : Nat) : Nat := (a + b - 1) / b

/-- Series expansion on the creation path (`src/App.tsx` lines 291-308):
`count = Math.ceil (12 / freq) + 1` occurrences, indices `0 ≤ i < count`,
each a copy of the anchor with the month advanced by `i * freq` via
`setMonth` and sharing the freshly minted series id; occurrence 0 keeps
the anchor's paid flag, all others start unpaid. -/
def createSeriesPayloads (billData : Bill) (sid : String) : List Payload :=
  (List.range (ceilDiv 12 (jsFreqDefault billData.frequency) + 1)).map fun i =>
    { preparePayload { billData with seriesId := some sid } with
      due_date := jsSetMonth billData.dueDate
        (billData.dueDate.month + i * jsFreqDefault billData.frequency)
      is_paid := if i = 0 then billData.isPaid else false }

/-- Series expansion on the regeneration path (`src/App.tsx` lines
388-404): `count = Math.ceil (12 / freq)` occurrences, indices
`1 ≤ i ≤ count` (strictly-future siblings only), every occurrence
unpaid, sharing the existing series id. -/
def regenSeriesPayloads (billData : Bill) (sid : String) : List Payload :=
  (List.range (ceilDiv 12 (jsFreqDefault billData.frequency))).map fun k =>
    { preparePayload { billData with seriesId := some sid } with
      due_date := jsSetMonth billData.dueDate
        (billData.dueDate.month + (k + 1) * jsFreqDefault billData.frequency)
      is_paid := false }

theorem jsFreqDefault_pos (o : Option Nat) : 1 ≤ jsFreqDefault o := by
  unfold jsFreqDefault
  rcases o with _ | f
  · exact Nat.le_refl 1
  · dsimp only
    split <;> omega

/-- Day numbers of the generated due dates, in generation order. -/
def dueDayNumbers (ps : List Payload) : List Nat :=
  ps.map fun p => dayNumber p.due_date

/-- Modelled from the claim's wording (not from the source): advancing a
date by `k` calendar months with the day-of-month clamped to the last
valid day of the target month. -/
def specClampAddMonths (dt : CivilDate) (k : Nat) : CivilDate :=
  ⟨dt.year + (dt.month + k) / 12, (dt.month + k) % 12,
   min dt.day (monthLen (isLeap (dt.year + (dt.month + k) / 12)) ((dt.month + k) % 12))⟩

/-- Sample recurring bill: quarterly frequency. -/
def bdQuarterly : Bill :=
  ⟨1, "Internet", 80, ⟨4, 0, 10⟩, false, true, some 3, BillCategory.media, none⟩

/-- Sample recurring bill: monthly frequency anchored at January 31 of a
leap year. -/
def bdJan31 : Bill :=
  ⟨3, "Rent", 1200, ⟨4, 0, 31⟩, false, true, some 1, BillCategory.house, none⟩

/-- Sample bill with a frequency outside the closed set. -/
def bdFreq5 : Bill :=
  ⟨2, "Odd", 10, ⟨4, 0, 10⟩, false, true, some 5, BillCategory.other, none⟩

/-- C2: for every valid frequency, the creation path produces
`ceil (12 / f) + 1` occurrences (anchor included) and the regeneration
path produces `ceil (12 / f)` occurrences (strictly-future siblings). -/
theorem expansion_count (billData : Bill) (sid : String) (f : Nat)
    (hf : billData.frequency = some f) (hmem : f ∈ ([1, 3, 6, 12] : List Nat)) :
    (createSeriesPayloads billData sid).length = ceilDiv 12 f + 1 ∧
    (regenSeriesPayloads billData sid).length = ceilDiv 12 f := by
  have hne : f ≠ 0 := by
    intro h0
    subst h0
    exact absurd hmem (by decide)
  constructor <;>
    simp [createSeriesPayloads, regenSeriesPayloads, hf, jsFreqDefault, hne]

/-- Witness for C2 at the claim's own example `f = 3`: 5 occurrences at
creation, 4 at regeneration. -/
theorem expansion_count_witness :
    bdQuarterly.frequency = some 3 ∧ (3 : Nat) ∈ ([1, 3, 6, 12] : List Nat) ∧
    (createSeriesPayloads bdQuarterly "s").length = ceilDiv 12 3 + 1 ∧
    (regenSeriesPayloads bdQuarterly "s").length = ceilDiv 12 3 ∧
    ceilDiv 12 3 + 1 = 5 ∧ ceilDiv 12 3 = 4 :=
  ⟨rfl, by decide,
   (expansion_count bdQuarterly "s" 3 rfl (by decide)).1,
   (expansion_count bdQuarterly "s" 3 rfl (by decide)).2,
   by decide, by decide⟩

/-- C6: on the creation path only the occurrence at index 0 inherits the
anchor's paid flag; every other occurrence, and every occurrence of the
regeneration path, starts unpaid. -/
theorem only_anchor_inherits_paid (billData : Bill) (sid : String) :
    ((createSeriesPayloads billData sid).map Payload.is_paid)
      = (List.range (ceilDiv 12 (jsFreqDefault billData.frequency) + 1)).map
          (fun i => if i = 0 then billData.isPaid else false)
    ∧ (regenSeriesPayloads billData sid).all (fun p => p.is_paid == false) = true := by
  constructor
  · unfold createSeriesPayloads
    rw [List.map_map]
    rfl
  · rw [List.all_eq_true]
    intro p hp
    unfold regenSeriesPayloads at hp
    rw [List.mem_map] at hp
    obtain ⟨k, _, rfl⟩ := hp
    rfl

/-- C9 counterexample: the supplied frequency 5 is outside the closed set
`{1, 3, 6, 12}`, yet expansion signals no error and produces occurrences
(`ceil (12 / 5) + 1 = 4` at creation, `3` at regeneration). -/
theorem no_invalid_frequency_counterexample :
    (5 : Nat) ∉ ([1, 3, 6, 12] : List Nat) ∧
    bdFreq5.frequency = some 5 ∧
    (createSeriesPayloads bdFreq5 "s").length = 4 ∧
    (regenSeriesPayloads bdFreq5 "s").length = 3 := by
  refine ⟨by decide, rfl, ?_, ?_⟩ <;> rfl

/-- C9 amended: series expansion is a total pure function; for every
frequency value (including values outside the closed set, and an absent
or zero frequency, which `||` defaults to MONTHLY) it produces a
non-empty batch of occurrences and never signals an error. -/
theorem expansion_total_never_fails (billData : Bill) (sid : String) :
    (createSeriesPayloads billData sid).length
        = ceilDiv 12 (jsFreqDefault billData.frequency) + 1
    ∧ (regenSeriesPayloads billData sid).length
        = ceilDiv 12 (jsFreqDefault billData.frequency)
    ∧ 1 ≤ (regenSeriesPayloads billData sid).length := by
  have hf := jsFreqDefault_pos billData.frequency
  refine ⟨by simp [createSeriesPayloads], by simp [regenSeriesPayloads], ?_⟩
  simp only [regenSeriesPayloads, List.length_map, List.length_range]
  unfold ceilDiv
  have hk : 0 < jsFreqDefault billData.frequency := by omega
  rw [Nat.le_div_iff_mul_le hk]
  omega

/-- C3 amended: all occurrences of one expansion call share the supplied
series id; their due dates are strictly increasing (as absolute day
numbers, hence as the ISO strings the store compares); and the `i`-th
occurrence's date is the anchor's date with the month field advanced by
`i * frequency` under JavaScript `setMonth` semantics, in which a
day-of-month missing from the target month overflows into the following
month rather than being clamped. -/
theorem expansion_series_monotone (billData : Bill) (sid : String)
    (h1 : 1 ≤ billData.dueDate.day) (h31 : billData.dueDate.day ≤ 31) :
    (∀ p ∈ createSeriesPayloads billData sid, p.series_id = some sid) ∧
    (dueDayNumbers (createSeriesPayloads billData sid)).Pairwise (· < ·) ∧
    (∀ i p, (createSeriesPayloads billData sid)[i]? = some p →
      p.due_date = jsSetMonth billData.dueDate
        (billData.dueDate.month + i * jsFreqDefault billData.frequency)) ∧
    (∀ p ∈ regenSeriesPayloads billData sid, p.series_id = some sid) ∧
    (dueDayNumbers (regenSeriesPayloads billData sid)).Pairwise (· < ·) ∧
    (∀ i p, (regenSeriesPayloads billData sid)[i]? = some p →
      p.due_date = jsSetMonth billData.dueDate
        (billData.dueDate.month + (i + 1) * jsFreqDefault billData.frequency)) := by
  have hfpos := jsFreqDefault_pos billData.frequency
  have hg : ∀ i j : Nat, i < j →
      dayNumber (jsSetMonth billData.dueDate
        (billData.dueDate.month + i * jsFreqDefault billData.frequency))
      < dayNumber (jsSetMonth billData.dueDate
        (billData.dueDate.month + j * jsFreqDefault billData.frequency)) := by
    intro i j hij
    rw [dayNumber_jsSetMonth _ _ h1 h31, dayNumber_jsSetMonth _ _ h1 h31]
    have hkey : i * jsFreqDefault billData.frequency
        < j * jsFreqDefault billData.frequency :=
      Nat.mul_lt_mul_of_pos_right hij (by omega)
    have := @monthStartAbs_strict_mono billData.dueDate.year
      (billData.dueDate.month + i * jsFreqDefault billData.frequency)
      (billData.dueDate.month + j * jsFreqDefault billData.frequency)
      (by omega)
    omega
  refine ⟨?_, ?_, ?_, ?_, ?_, ?_⟩
  · intro p hp
    unfold createSeriesPayloads at hp
    rw [List.mem_map] at hp
    obtain ⟨i, _, rfl⟩ := hp
    rfl
  · unfold dueDayNumbers createSeriesPayloads
    rw [List.map_map, List.pairwise_map]
    exact (List.pairwise_lt_range _).imp fun h => hg _ _ h
  · intro i p hp
    unfold createSeriesPayloads at hp
    rw [List.getElem?_map] at hp
    rcases Nat.lt_or_ge i (ceilDiv 12 (jsFreqDefault billData.frequency) + 1) with h | h
    · rw [List.getElem?_range h] at hp
      simp only [Option.map_some', Option.some.injEq] at hp
      subst hp
      rfl
    · rw [List.getElem?_eq_none (by simpa using h)] at hp
      simp at hp
  · intro p hp
    unfold regenSeriesPayloads at hp
    rw [List.mem_map] at hp
    obtain ⟨i, _, rfl⟩ := hp
    rfl
  · unfold dueDayNumbers regenSeriesPayloads
    rw [List.map_map, List.pairwise_map]
    exact (List.pairwise_lt_range _).imp fun h => hg _ _ (by omega)
  · intro i p hp
    unfold regenSeriesPayloads at hp
    rw [List.getElem?_map] at hp
    rcases Nat.lt_or_ge i (ceilDiv 12 (jsFreqDefault billData.frequency)) with h | h
    · rw [List.getElem?_range h] at hp
      simp only [Option.map_some', Option.some.injEq] at hp
      subst hp
      rfl
    · rw [List.getElem?_eq_none (by simpa using h)] at hp
      simp at hp

/-- Witness for the amended C3 at a concrete anchor (January 31 of a
leap year, monthly): the hypotheses hold and the generated due-date day
numbers are strictly increasing. -/
theorem expansion_series_monotone_witness :
    1 ≤ bdJan31.dueDate.day ∧ bdJan31.dueDate.day ≤ 31 ∧
    (dueDayNumbers (createSeriesPayloads bdJan31 "s")).Pairwise (· < ·) :=
  ⟨by decide, by decide,
   (expansion_series_monotone bdJan31 "s" (by decide) (by decide)).2.1⟩

/-- C3 counterexample: the code does not clamp.  The anchor is January 31
of leap year 4, frequency monthly; the occurrence at index 1 lands on
March 2 (day 31 of February overflows by two days), whereas clamping to
the last valid day of the target month would give February 29. -/
theorem expansion_no_clamp_counterexample :
    ((createSeriesPayloads bdJan31 "s").map Payload.due_date)[1]?
        = some ⟨4, 2, 2⟩ ∧
    specClampAddMonths bdJan31.dueDate 1 = ⟨4, 1, 29⟩ ∧
    (⟨4, 2, 2⟩ : CivilDate) ≠ specClampAddMonths bdJan31.dueDate 1 := by
  refine ⟨rfl, rfl, by decide⟩

/-- Remote `gt('due_date', cutoff)` on a row's date: ISO-string order of
the stored strings, which coincides with `dayNumber` order. -/
def dueGtB (d cutoff : CivilDate) : Bool :=
  decide (dayNumber cutoff < dayNumber d)

/-- Remote `update(...).eq('id', id)` (`src/App.tsx` lines 371-374 and
424-427): replace the matching row's fields, keeping its id. -/
def updateById (rows : List Bill) (id : Nat) (p : Payload) : List Bill :=
  rows.map fun r => if r.id = id then applyPayload p r.id else r

/-- Remote `delete()` under a predicate: remove every matching row. -/
def deleteWhere (rows : List Bill) (p : Bill → Bool) : List Bill :=
  rows.filter fun r => !(p r)

/-- Deletion predicate of the turn-off-recurrence branch (`src/App.tsx`
lines 342-354): match by series id when the original bill has one,
otherwise by the legacy name-and-amount heuristic, in both cases with
`due_date` strictly greater than the edited bill's (new) date. -/
def turnOffPredB (orig billData r : Bill) : Bool :=
  (match orig.seriesId with
   | some sid => r.seriesId == some sid
   | none => r.name == orig.name && decide (r.amount = orig.amount))
  && dueGtB r.dueDate billData.dueDate

/-- Deletion predicate of the update-future branch (`src/App.tsx` lines
379-383): same series, `due_date` strictly greater than the edited
bill's new date. -/
def futureSiblingB (sid : String) (cutoff : CivilDate) (r : Bill) : Bool :=
  r.seriesId == some sid && dueGtB r.dueDate cutoff

/-- Payload written for the edited bill when recurrence was turned off
(`src/App.tsx` lines 417-422): built from the edited data with
`series_id` forced to null. -/
def turnOffPayload (b : Bill) : Payload :=
  { preparePayload { b with seriesId := none } with series_id := none }

/-- Outcome of one edit operation: the remote table, the local mirror
(the `bills` state, always written through to the cache blob), and
whether the controller finished with a full remote re-fetch
(`fetchBills(true)`) instead of an incremental mirror patch. -/
structure SaveResult where
  remote : List Bill
  mirror : List Bill
  refetched : Bool
deriving DecidableEq, Repr

/-- The edit path of `handleSaveBill` (`src/App.tsx` lines 331-436),
with the remote store modelled as a list of rows and each remote
mutation as the corresponding pure list operation.

* step 1 (lines 338-362): if the bill was recurring, is no longer, and
  the user confirmed, delete the future part of the series
  (`turnOffPredB`) and clear the edited data's `seriesId`;
* step 2 (lines 365-413): if it stays recurring, `updateFuture` was
  requested and the original bill carries a series id, update the edited
  row in place, delete the strictly-future siblings, insert the
  regenerated tail, and finish with a full re-fetch (the mirror becomes
  the fetched remote state);
* step 3 (lines 416-435): otherwise update the single row (with
  `series_id` nulled when recurrence was turned off, confirmed or not)
  and patch the mirror incrementally. -/
def handleSaveBillEdit (bills remote : List Bill) (billData : Bill)
    (confirmDelete updateFuture : Bool) (tailStartId : Nat) : SaveResult :=
  match bills.find? (fun b => b.id == billData.id) with
  | none =>
      { remote := updateById remote billData.id (preparePayload billData)
        mirror := bills.map fun b => if b.id = billData.id then billData else b
        refetched := false }
  | some orig =>
      let step1 := orig.isRecurring && !billData.isRecurring && confirmDelete
      let remote1 := if step1 then deleteWhere remote (turnOffPredB orig billData) else remote
      let billData1 := if step1 then { billData with seriesId := none } else billData
      match orig.isRecurring && billData.isRecurring && updateFuture, orig.seriesId with
      | true, some sid =>
          let remoteA := updateById remote1 billData.id (preparePayload billData)
          let remoteB := deleteWhere remoteA (futureSiblingB sid billData.dueDate)
          let remoteC := remoteB ++ applyPayloads tailStartId (regenSeriesPayloads billData sid)
          { remote := remoteC, mirror := remoteC, refetched := true }
      | _, _ =>
          let payload0 := preparePayload billData1
          let payload := if orig.isRecurring && !billData.isRecurring then
            { payload0 with series_id := none } else payload0
          { remote := updateById remote1 billData.id payload
            mirror := bills.map fun b => if b.id = billData.id then billData1 else b
            refetched := false }

/-- C1: editing a recurring bill that stays recurring, with
`updateFuture` and a series id, performs exactly update-in-place, then
deletion of the strictly-later siblings of the series, then insertion of
the regenerated tail, and finishes with a full remote re-fetch (the
mirror is replaced by the fetched remote state, never patched
incrementally); every regenerated occurrence is unpaid, carries the new
price and the series id. -/
theorem update_future_full_regeneration (bills remote : List Bill)
    (billData orig : Bill) (sid : String) (confirmDelete : Bool) (tid : Nat)
    (hfind : bills.find? (fun b => b.id == billData.id) = some orig)
    (hwas : orig.isRecurring = true)
    (hnow : billData.isRecurring = true)
    (hsid : orig.seriesId = some sid) :
    handleSaveBillEdit bills remote billData confirmDelete true tid =
      { remote := deleteWhere (updateById remote billData.id (preparePayload billData))
                    (futureSiblingB sid billData.dueDate)
                  ++ applyPayloads tid (regenSeriesPayloads billData sid)
        mirror := deleteWhere (updateById remote billData.id (preparePayload billData))
                    (futureSiblingB sid billData.dueDate)
                  ++ applyPayloads tid (regenSeriesPayloads billData sid)
        refetched := true }
    ∧ (regenSeriesPayloads billData sid).all
        (fun p => !p.is_paid && (p.series_id == some sid)
          && decide (p.amount = billData.amount)) = true := by
  constructor
  · unfold handleSaveBillEdit
    rw [hfind]
    simp [hwas, hnow, hsid]
  · rw [List.all_eq_true]
    intro p hp
    unfold regenSeriesPayloads at hp
    rw [List.mem_map] at hp
    obtain ⟨k, _, rfl⟩ := hp
    simp [preparePayload]

/-- Original bill of a concrete update-future scenario. -/
def origRec : Bill :=
  ⟨7, "Gas", 60, ⟨4, 3, 5⟩, false, true, some 1, BillCategory.media, some "ser"⟩

/-- The same bill edited to a new price, still recurring. -/
def editRec : Bill := { origRec with amount := 75 }

/-- A strictly-later sibling of the same series. -/
def siblingLater : Bill :=
  ⟨8, "Gas", 60, ⟨4, 4, 5⟩, false, true, some 1, BillCategory.media, some "ser"⟩

/-- Witness for C1 at a concrete price-change edit. -/
theorem update_future_full_regeneration_witness :
    [origRec, siblingLater].find? (fun b => b.id == editRec.id) = some origRec ∧
    origRec.isRecurring = true ∧ editRec.isRecurring = true ∧
    origRec.seriesId = some "ser" ∧
    handleSaveBillEdit [origRec, siblingLater] [origRec, siblingLater] editRec false true 100 =
      { remote := deleteWhere
                    (updateById [origRec, siblingLater] editRec.id (preparePayload editRec))
                    (futureSiblingB "ser" editRec.dueDate)
                  ++ applyPayloads 100 (regenSeriesPayloads editRec "ser")
        mirror := deleteWhere
                    (updateById [origRec, siblingLater] editRec.id (preparePayload editRec))
                    (futureSiblingB "ser" editRec.dueDate)
                  ++ applyPayloads 100 (regenSeriesPayloads editRec "ser")
        refetched := true }
    ∧ (regenSeriesPayloads editRec "ser").all
        (fun p => !p.is_paid && (p.series_id == some "ser")
          && decide (p.amount = editRec.amount)) = true :=
  ⟨by decide, rfl, rfl, rfl,
   (update_future_full_regeneration [origRec, siblingLater] [origRec, siblingLater]
     editRec origRec "ser" false 100 (by decide) rfl rfl rfl).1,
   (update_future_full_regeneration [origRec, siblingLater] [origRec, siblingLater]
     editRec origRec "ser" false 100 (by decide) rfl rfl rfl).2⟩

/-- Deleting the future part of a series and then updating the edited
row composes into a single row-wise traversal of the original table. -/
theorem updateById_deleteWhere (rows : List Bill) (p : Bill → Bool)
    (id : Nat) (q : Payload) :
    updateById (deleteWhere rows p) id q =
      rows.filterMap (fun r => if p r then none
        else some (if r.id = id then applyPayload q r.id else r)) := by
  induction rows with
  | nil => rfl
  | cons a l ih =>
    simp only [deleteWhere, updateById, List.filter_cons, List.filterMap_cons] at ih ⊢
    by_cases h : p a <;> simp [h, ih]

/-- C4 amended: turning recurrence off with confirmation deletes exactly
the rows matching the series (or legacy name-and-amount) heuristic whose
due date is strictly greater than the edited bill's new date, updates
the row with the edited bill's id to the new fields with `series_id`
cleared and `is_recurring` false, and leaves every other row untouched —
provided the edited bill's stored due date does not exceed its new one;
if the date was moved strictly earlier, the edited bill's own row
matches the deletion predicate and is itself deleted, so the update
touches nothing (see the counterexample). -/
theorem turn_off_recurrence_update (bills remote : List Bill) (billData orig : Bill)
    (uf : Bool) (tid : Nat)
    (hfind : bills.find? (fun b => b.id == billData.id) = some orig)
    (hwas : orig.isRecurring = true)
    (hnow : billData.isRecurring = false) :
    handleSaveBillEdit bills remote billData true uf tid =
      { remote := remote.filterMap (fun r => if turnOffPredB orig billData r then none
          else some (if r.id = billData.id then applyPayload (turnOffPayload billData) r.id else r))
        mirror := bills.map fun b =>
          if b.id = billData.id then { billData with seriesId := none } else b
        refetched := false }
    ∧ (turnOffPayload billData).series_id = none
    ∧ (turnOffPayload billData).is_recurring = false
    ∧ ∀ r ∈ remote, r.id = billData.id →
        dayNumber r.dueDate ≤ dayNumber billData.dueDate →
        applyPayload (turnOffPayload billData) billData.id
          ∈ (handleSaveBillEdit bills remote billData true uf tid).remote := by
  have hmain : handleSaveBillEdit bills remote billData true uf tid =
      { remote := remote.filterMap (fun r => if turnOffPredB orig billData r then none
          else some (if r.id = billData.id then applyPayload (turnOffPayload billData) r.id else r))
        mirror := bills.map fun b =>
          if b.id = billData.id then { billData with seriesId := none } else b
        refetched := false } := by
    unfold handleSaveBillEdit
    rw [hfind]
    simp only [hwas, hnow, Bool.not_false, Bool.and_true, Bool.true_and, Bool.and_false,
      Bool.false_and, if_true]
    rw [updateById_deleteWhere]
    simp [turnOffPayload, preparePayload, hnow]
  refine ⟨hmain, rfl, hnow, ?_⟩
  intro r hr hid hle
  rw [hmain]
  rw [List.mem_filterMap]
  refine ⟨r, hr, ?_⟩
  have hpred : turnOffPredB orig billData r = false := by
    unfold turnOffPredB dueGtB
    have hdec : decide (dayNumber billData.dueDate < dayNumber r.dueDate) = false :=
      decide_eq_false_iff_not.mpr (Nat.not_lt.mpr hle)
    rw [hdec, Bool.and_false]
  rw [hpred]
  simp [hid]

/-- Original recurring bill of the concrete turn-off scenario, due in
June. -/
def origJune : Bill :=
  ⟨1, "Loan", 100, ⟨4, 5, 15⟩, false, true, some 1, BillCategory.credit, some "s"⟩

/-- The same bill edited: recurrence turned off and the due date moved a
month earlier, to May. -/
def editMay : Bill :=
  { origJune with dueDate := ⟨4, 4, 15⟩, isRecurring := false, frequency := none }

/-- C4 counterexample: turning recurrence off with confirmation while
moving the due date earlier.  The remote deletion predicate (same
series, due date strictly greater than the NEW date) matches the edited
bill's own stored row, so the row is deleted and the subsequent
update-by-id touches nothing: the post-state remote table is empty — the
edited bill is not "updated with seriesId cleared", it is gone. -/
theorem turn_off_deletes_edited_row_counterexample :
    origJune.isRecurring = true ∧ editMay.isRecurring = false ∧
    origJune.id = editMay.id ∧
    handleSaveBillEdit [origJune] [origJune] editMay true false 0 =
      { remote := []
        mirror := [{ editMay with seriesId := none }]
        refetched := false } := by
  exact ⟨rfl, rfl, rfl, by decide⟩

/-- The same bill edited with recurrence turned off but the due date
kept. -/
def editKeep : Bill := { origJune with isRecurring := false, frequency := none }

/-- Witness for the amended C4: same scenario but the due date is kept,
so the edited row survives deletion and is updated in place. -/
theorem turn_off_recurrence_update_witness :
    ([origJune].find? (fun b => b.id == editKeep.id) = some origJune) ∧
    origJune.isRecurring = true ∧ editKeep.isRecurring = false ∧
    handleSaveBillEdit [origJune] [origJune] editKeep true false 0 =
      { remote := [origJune].filterMap (fun r =>
          if turnOffPredB origJune editKeep r then none
          else some (if r.id = editKeep.id
            then applyPayload (turnOffPayload editKeep) r.id
            else r))
        mirror := [origJune].map fun b =>
          if b.id = editKeep.id then { editKeep with seriesId := none } else b
        refetched := false }
    ∧ applyPayload (turnOffPayload editKeep) editKeep.id
        ∈ (handleSaveBillEdit [origJune] [origJune] editKeep true false 0).remote :=
  ⟨by decide, rfl, rfl,
   (turn_off_recurrence_update [origJune] [origJune] editKeep origJune false 0
     (by decide) rfl rfl).1,
   (turn_off_recurrence_update [origJune] [origJune] editKeep origJune false 0
     (by decide) rfl rfl).2.2.2 origJune (by decide) rfl (by decide)⟩

/-- `handleSubmit`'s decision to offer the update-future path
(`src/components/EditModal.tsx` lines 110-119): the confirmation prompt
is shown only when the bill being edited carries a series id, is
recurring, and its amount or its name changed; `updateFuture` is the
prompt's answer and is `false` whenever the prompt is not shown. -/
def shouldOfferUpdateFuture (initialBill : Bill) (newName : String)
    (newAmount : Rat) : Bool :=
  initialBill.seriesId.isSome && initialBill.isRecurring
    && (decide (initialBill.amount ≠ newAmount) || decide (initialBill.name ≠ newName))

/-- Initial bill of a frequency-only edit: monthly, in a series. -/
def freqOnlyInitial : Bill :=
  ⟨9, "Gym", 50, ⟨4, 0, 10⟩, false, true, some 1, BillCategory.other, some "g"⟩

/-- C5 counterexample: an edit that changes only the frequency (to
quarterly, `some 3`, different from the stored `some 1`) while keeping
the name and the amount.  The reconciliation flow does NOT offer the
update-future path: the prompt condition consults only the amount and
the name, so `updateFuture` stays `false` and no regeneration happens. -/
theorem frequency_change_not_offered_counterexample :
    shouldOfferUpdateFuture freqOnlyInitial "Gym" 50 = false ∧
    freqOnlyInitial.frequency ≠ some 3 ∧
    freqOnlyInitial.seriesId.isSome = true ∧
    freqOnlyInitial.isRecurring = true := by
  exact ⟨rfl, by decide, rfl, rfl⟩

/-- C5 amended: the update-future path is offered exactly when the
edited bill belongs to a series, is recurring, and its amount or name
changed (a frequency-only change never triggers it); when the path is
taken, every regenerated occurrence does inherit the edited bill's
(possibly changed) frequency. -/
theorem update_future_offer_and_inheritance :
    (∀ (ib : Bill) (n : String) (a : Rat),
      shouldOfferUpdateFuture ib n a = true ↔
        (ib.seriesId.isSome = true ∧ ib.isRecurring = true ∧
          (ib.amount ≠ a ∨ ib.name ≠ n)))
    ∧ ∀ (bd : Bill) (sid : String),
        (regenSeriesPayloads bd sid).all (fun p => p.frequency == bd.frequency) = true := by
  constructor
  · intro ib n a
    unfold shouldOfferUpdateFuture
    simp [and_assoc]
  · intro bd sid
    rw [List.all_eq_true]
    intro p hp
    unfold regenSeriesPayloads at hp
    rw [List.mem_map] at hp
    obtain ⟨k, _, rfl⟩ := hp
    simp [preparePayload]

/-- Witness for the amended C5: a price change on `origRec` is offered,
and the tail regenerated from `editRec` inherits its frequency. -/
theorem update_future_offer_and_inheritance_witness :
    shouldOfferUpdateFuture origRec "Gas" 99 = true ∧
    (regenSeriesPayloads editRec "ser").all
      (fun p => p.frequency == editRec.frequency) = true :=
  ⟨(update_future_offer_and_inheritance.1 origRec "Gas" 99).mpr
     ⟨rfl, rfl, Or.inl (by decide)⟩,
   update_future_offer_and_inheritance.2 editRec "ser"⟩

/-- JavaScript `s.trim().toLowerCase()` modelled over the character
list: strip whitespace from both ends, then lower-case every character
(basic-latin lowering, which covers the comparison the program makes). -/
def jsTrimLower (s : String) : String :=
  String.mk
    (((s.data.dropWhile Char.isWhitespace).reverse.dropWhile
        Char.isWhitespace).reverse.map Char.toLower)

/-- `if (initialBill && b.id === initialBill.id) return false`
(`src/components/EditModal.tsx` line 70): skip the bill being edited. -/
def skipSelf (initialBill : Option Bill) (b : Bill) : Bool :=
  match initialBill with
  | some ib => b.id == ib.id
  | none => false

/-- `validateDuplicate` (`src/components/EditModal.tsx` lines 66-81):
scan the existing bills, skipping the bill being edited, for one whose
due date falls in the same month and year as the candidate date and
whose trimmed, lower-cased name equals the candidate's; `handleSubmit`
(lines 92-96) rejects the save as a duplicate exactly when this returns
`true`. -/
def validateDuplicate (existingBills : List Bill) (initialBill : Option Bill)
    (checkName : String) (checkDate : CivilDate) : Bool :=
  (existingBills.find? fun b =>
    if skipSelf initialBill b then false
    else
      (b.dueDate.month == checkDate.month) && (b.dueDate.year == checkDate.year)
        && (jsTrimLower b.name == jsTrimLower checkName)).isSome

/-- Pre-existing "netflix" bill dated 2024-03-20 (month 2 is March,
0-based). -/
def netflixLower : Bill :=
  ⟨21, "netflix", 29, ⟨2024, 2, 20⟩, false, false, none,
   BillCategory.subscription, none⟩

/-- C7: the duplicate guard fires exactly when some existing bill other
than the one being edited shares the candidate's due month, due year,
and case-insensitive trimmed name; in particular creating "Netflix"
dated 2024-03-05 next to an existing "netflix" dated 2024-03-20 is
rejected, while "Netflix" dated 2024-04-01 is accepted. -/
theorem duplicate_guard_iff :
    (∀ (existingBills : List Bill) (initialBill : Option Bill)
        (checkName : String) (checkDate : CivilDate),
      validateDuplicate existingBills initialBill checkName checkDate = true ↔
        ∃ b ∈ existingBills,
          (∀ ib, initialBill = some ib → b.id ≠ ib.id) ∧
          b.dueDate.month = checkDate.month ∧ b.dueDate.year = checkDate.year ∧
          jsTrimLower b.name = jsTrimLower checkName)
    ∧ validateDuplicate [netflixLower] none "Netflix" ⟨2024, 2, 5⟩ = true
    ∧ validateDuplicate [netflixLower] none "Netflix" ⟨2024, 3, 1⟩ = false := by
  refine ⟨?_, by decide, by decide⟩
  intro existingBills initialBill checkName checkDate
  unfold validateDuplicate
  rw [List.find?_isSome]
  constructor
  · rintro ⟨b, hb, hpb⟩
    refine ⟨b, hb, ?_⟩
    cases hB : skipSelf initialBill b with
    | true => simp [hB] at hpb
    | false =>
      rw [hB] at hpb
      simp only [Bool.false_eq_true, if_false, Bool.and_eq_true, beq_iff_eq] at hpb
      refine ⟨?_, hpb.1.1, hpb.1.2, hpb.2⟩
      intro ib hib
      rw [hib] at hB
      unfold skipSelf at hB
      simpa using hB
  · rintro ⟨b, hb, hskip, h1, h2, h3⟩
    refine ⟨b, hb, ?_⟩
    have hB : skipSelf initialBill b = false := by
      unfold skipSelf
      rcases initialBill with _ | ib
      · rfl
      · simpa using hskip ib rfl
    rw [hB]
    simp [h1, h2, h3]

/-- `toggleBillPaid` (`src/App.tsx` lines 206-240): find the target row
(early return `none` when absent), flip its paid flag in the mirror
optimistically, issue the remote update, and on remote failure rebuild
the mirror with the flag set back.  The result is the optimistic mirror
state, the final mirror state, and whether a user-visible error was
surfaced. -/
def toggleBillPaid (bills : List Bill) (id : Nat) (remoteFails : Bool) :
    Option (List Bill × List Bill × Bool) :=
  match bills.find? (fun b => b.id == id) with
  | none => none
  | some billToUpdate =>
    let newStatus := !billToUpdate.isPaid
    let updatedBills := bills.map fun b =>
      if b.id = id then { b with isPaid := newStatus } else b
    if remoteFails then
      let revertedBills := bills.map fun b =>
        if b.id = id then { b with isPaid := !newStatus } else b
      (updatedBills, revertedBills, true)
    else
      (updatedBills, updatedBills, false)

/-- `handleDeleteBill` (`src/App.tsx` lines 242-267): snapshot the
mirror, drop the row optimistically, issue the remote delete, and on
failure restore the snapshot.  Result: optimistic mirror, final mirror,
error surfaced. -/
def handleDeleteBill (bills : List Bill) (id : Nat) (remoteFails : Bool) :
    List Bill × List Bill × Bool :=
  let newBills := bills.filter fun b => !(b.id == id)
  if remoteFails then (newBills, bills, true) else (newBills, newBills, false)

/-- Under unique row ids, a row found by id is the only one with it. -/
theorem find_unique (l : List Bill) (t : Bill) (id : Nat)
    (hf : l.find? (fun b => b.id == id) = some t)
    (hu : (l.map Bill.id).Nodup) :
    ∀ b ∈ l, b.id = id → b = t := by
  have htmem := List.mem_of_find?_eq_some hf
  have htid : t.id = id := by simpa using List.find?_some hf
  intro b hb hbid
  exact List.inj_on_of_nodup_map hu hb htmem (by rw [hbid, htid])

/-- Under unique row ids, filtering by the found id keeps exactly one
row. -/
theorem filter_id_single (l : List Bill) (t : Bill) (id : Nat)
    (hf : l.find? (fun b => b.id == id) = some t)
    (hu : (l.map Bill.id).Nodup) :
    l.filter (fun b => b.id == id) = [t] := by
  induction l with
  | nil => simp at hf
  | cons a l ih =>
    cases ha : (a.id == id) with
    | true =>
      rw [List.find?_cons_of_pos l ha] at hf
      simp only [Option.some.injEq] at hf
      subst hf
      rw [List.filter_cons, if_pos ha]
      have hnot : ∀ b ∈ l, ¬((fun b => b.id == id) b = true) := by
        intro b hb hbid
        have haid : a.id = id := by simpa using ha
        have hbid' : b.id = id := by simpa using hbid
        rw [List.map_cons, List.nodup_cons] at hu
        have hmem : a.id ∈ List.map Bill.id l := by
          have hab : a.id = b.id := by rw [haid, hbid']
          rw [hab]
          exact List.mem_map_of_mem Bill.id hb
        exact hu.1 hmem
      rw [List.filter_eq_nil_iff.mpr hnot]
    | false =>
      have hna : ¬((a.id == id) = true) := by
        rw [ha]
        exact Bool.false_ne_true
      rw [List.find?_cons_of_neg l hna] at hf
      rw [List.filter_cons, if_neg hna]
      rw [List.map_cons, List.nodup_cons] at hu
      exact ih hf hu.2

/-- C8: toggle-paid and delete each act on exactly one row (matched by
id, of which there is exactly one): the optimistic mirror state carries
the single-row mutation, the success path keeps it, and the failure path
surfaces an error and leaves the final mirror equal — hence serialized
byte-identically — to the pre-mutation state. -/
theorem toggle_delete_single_row (bills : List Bill) (t : Bill) (id : Nat)
    (hfind : bills.find? (fun b => b.id == id) = some t)
    (huniq : (bills.map Bill.id).Nodup) :
    toggleBillPaid bills id false =
      some (bills.map (fun b => if b.id = id then { b with isPaid := !b.isPaid } else b),
            bills.map (fun b => if b.id = id then { b with isPaid := !b.isPaid } else b),
            false)
    ∧ toggleBillPaid bills id true =
      some (bills.map (fun b => if b.id = id then { b with isPaid := !b.isPaid } else b),
            bills, true)
    ∧ bills.filter (fun b => b.id == id) = [t]
    ∧ handleDeleteBill bills id false =
        (bills.filter (fun b => !(b.id == id)),
         bills.filter (fun b => !(b.id == id)), false)
    ∧ handleDeleteBill bills id true =
        (bills.filter (fun b => !(b.id == id)), bills, true) := by
  have huni := find_unique bills t id hfind huniq
  have hmapeq : bills.map (fun b => if b.id = id then { b with isPaid := !t.isPaid } else b)
      = bills.map (fun b => if b.id = id then { b with isPaid := !b.isPaid } else b) := by
    apply List.map_congr_left
    intro b hb
    by_cases hid : b.id = id
    · rw [if_pos hid, if_pos hid, huni b hb hid]
    · rw [if_neg hid, if_neg hid]
  have hrevert : bills.map
      (fun b => if b.id = id then { b with isPaid := !(!t.isPaid) } else b) = bills := by
    have hptw : ∀ b ∈ bills,
        (if b.id = id then { b with isPaid := !(!t.isPaid) } else b) = b := by
      intro b hb
      by_cases hid : b.id = id
      · rw [if_pos hid, huni b hb hid, Bool.not_not]
      · rw [if_neg hid]
    exact (List.map_congr_left hptw).trans (List.map_id bills)
  have hA : toggleBillPaid bills id false =
      some (bills.map (fun b => if b.id = id then { b with isPaid := !t.isPaid } else b),
            bills.map (fun b => if b.id = id then { b with isPaid := !t.isPaid } else b),
            false) := by
    unfold toggleBillPaid
    rw [hfind]
    rfl
  have hB : toggleBillPaid bills id true =
      some (bills.map (fun b => if b.id = id then { b with isPaid := !t.isPaid } else b),
            bills.map (fun b => if b.id = id then { b with isPaid := !(!t.isPaid) } else b),
            true) := by
    unfold toggleBillPaid
    rw [hfind]
    rfl
  refine ⟨?_, ?_, filter_id_single bills t id hfind huniq, rfl, rfl⟩
  · rw [hA, hmapeq]
  · rw [hB, hmapeq, hrevert]

/-- Sample one-off bill. -/
def billWater : Bill :=
  ⟨11, "Water", 40, ⟨4, 1, 3⟩, false, false, none, BillCategory.house, none⟩

/-- Another sample one-off bill with a distinct id. -/
def billTrash : Bill :=
  ⟨12, "Trash", 20, ⟨4, 1, 4⟩, true, false, none, BillCategory.house, none⟩

/-- Witness for C8 on a concrete two-row mirror. -/
theorem toggle_delete_single_row_witness :
    ([billWater, billTrash].find? (fun b => b.id == 11) = some billWater) ∧
    (([billWater, billTrash].map Bill.id).Nodup) ∧
    toggleBillPaid [billWater, billTrash] 11 true =
      some ([billWater, billTrash].map
              (fun b => if b.id = 11 then { b with isPaid := !b.isPaid } else b),
            [billWater, billTrash], true) ∧
    [billWater, billTrash].filter (fun b => b.id == 11) = [billWater] ∧
    handleDeleteBill [billWater, billTrash] 11 true =
      ([billWater, billTrash].filter (fun b => !(b.id == 11)),
       [billWater, billTrash], true) :=
  ⟨by decide, by decide,
   (toggle_delete_single_row [billWater, billTrash] billWater 11
     (by decide) (by decide)).2.1,
   (toggle_delete_single_row [billWater, billTrash] billWater 11
     (by decide) (by decide)).2.2.1,
   (toggle_delete_single_row [billWater, billTrash] billWater 11
     (by decide) (by decide)).2.2.2.2⟩

/-- Monthly statistics record (`src/types.ts`, `MonthlyStats`). -/
structure MonthlyStats where
  total : Rat
  paid : Rat
  pending : Rat
deriving DecidableEq, Repr

/-- One step of the `stats` reduction (`src/App.tsx` lines 142-150):
always add the amount to the running total, then to exactly one of
`paid` or `pending` according to the paid flag. -/
def statsStep (acc : MonthlyStats) (bill : Bill) : MonthlyStats :=
  let acc1 := { acc with total := acc.total + bill.amount }
  if bill.isPaid then { acc1 with paid := acc1.paid + bill.amount }
  else { acc1 with pending := acc1.pending + bill.amount }

/-- `stats` (`src/App.tsx` lines 141-151): fold over the (filtered)
bills starting from zeroes. -/
def statsOf (l : List Bill) : MonthlyStats := l.foldl statsStep ⟨0, 0, 0⟩

theorem statsOf_foldl (l : List Bill) (acc : MonthlyStats) :
    (l.foldl statsStep acc).total = acc.total + (l.map Bill.amount).sum ∧
    (l.foldl statsStep acc).paid
      = acc.paid + ((l.filter (fun b => b.isPaid)).map Bill.amount).sum ∧
    (l.foldl statsStep acc).pending
      = acc.pending + ((l.filter (fun b => !b.isPaid)).map Bill.amount).sum := by
  induction l generalizing acc with
  | nil => simp
  | cons a l ih =>
    obtain ⟨ih1, ih2, ih3⟩ := ih (statsStep acc a)
    rw [List.foldl_cons] at *
    cases h : a.isPaid
    · refine ⟨?_, ?_, ?_⟩
      · rw [ih1]
        simp [statsStep, h]
        ring
      · rw [ih2]
        simp [statsStep, h, List.filter_cons]
      · rw [ih3]
        simp [statsStep, h, List.filter_cons]
        ring
    · refine ⟨?_, ?_, ?_⟩
      · rw [ih1]
        simp [statsStep, h]
        ring
      · rw [ih2]
        simp [statsStep, h, List.filter_cons]
        ring
      · rw [ih3]
        simp [statsStep, h, List.filter_cons]

/-- C10: for every list of bills, the aggregated total equals paid plus
pending; the total is the sum of all amounts, and each amount lands in
exactly one of the paid or pending buckets according to its paid flag
(the two buckets sum the paid and unpaid sublists respectively). -/
theorem sum_split_filter (l : List Bill) :
    (l.map Bill.amount).sum
      = ((l.filter (fun b => b.isPaid)).map Bill.amount).sum
        + ((l.filter (fun b => !b.isPaid)).map Bill.amount).sum := by
  induction l with
  | nil => simp
  | cons a l ih =>
    simp only [List.map_cons, List.sum_cons, List.filter_cons]
    cases h : a.isPaid
    · simp only [h, Bool.not_false, Bool.false_eq_true, if_false, if_true,
        List.map_cons, List.sum_cons]
      rw [ih]
      ring
    · simp only [h, Bool.not_true, Bool.false_eq_true, if_false, if_true,
        List.map_cons, List.sum_cons]
      rw [ih]
      ring

theorem stats_total_split (l : List Bill) :
    (statsOf l).total = (statsOf l).paid + (statsOf l).pending ∧
    (statsOf l).total = (l.map Bill.amount).sum ∧
    (statsOf l).paid = ((l.filter (fun b => b.isPaid)).map Bill.amount).sum ∧
    (statsOf l).pending = ((l.filter (fun b => !b.isPaid)).map Bill.amount).sum := by
  obtain ⟨h1, h2, h3⟩ := statsOf_foldl l ⟨0, 0, 0⟩
  unfold statsOf
  refine ⟨?_, ?_, ?_, ?_⟩
  · rw [h1, h2, h3]
    dsimp only
    rw [zero_add, zero_add, zero_add]
    exact sum_split_filter l
  · rw [h1]
    dsimp only
    rw [zero_add]
  · rw [h2]
    dsimp only
    rw [zero_add]
  · rw [h3]
    dsimp only
    rw [zero_add]

/-- Witness for C6 at a concrete anchor. -/
theorem only_anchor_inherits_paid_witness :
    (regenSeriesPayloads bdQuarterly "s").all (fun p => p.is_paid == false) = true :=
  (only_anchor_inherits_paid bdQuarterly "s").2

/-- Witness for C7 at the claim's own example. -/
theorem duplicate_guard_iff_witness :
    validateDuplicate [netflixLower] none "Netflix" ⟨2024, 2, 5⟩ = true ∧
    validateDuplicate [netflixLower] none "Netflix" ⟨2024, 3, 1⟩ = false :=
  ⟨duplicate_guard_iff.2.1, duplicate_guard_iff.2.2⟩

/-- Witness for the amended C9 at the out-of-set frequency 5. -/
theorem expansion_total_never_fails_witness :
    (createSeriesPayloads bdFreq5 "s").length
      = ceilDiv 12 (jsFreqDefault bdFreq5.frequency) + 1 :=
  (expansion_total_never_fails bdFreq5 "s").1

/-- Witness for C10 on a concrete two-bill list. -/
theorem stats_total_split_witness :
    (statsOf [billWater, billTrash]).total
      = (statsOf [billWater, billTrash]).paid + (statsOf [billWater, billTrash]).pending :=
  (stats_total_split [billWater, billTrash]).1

end LiquidBills
